import Mathlib

/- Shallow embedding of the Distributed-Cache-Go repository: the LRU eviction
   engine (package lru: store.go and the engine file) and the cache facade
   (cache.go).  Go interface values stored in container/list elements are
   modelled by the sum type NodeVal, which records the dynamic type of the
   stored value; a failed type assertion, a method call on the nil logger, and
   a method call on a nil store interface are modelled as GoPanic values in an
   Except monad.  Machine integers (int64, int) are modelled as Int; time
   instants and durations as Int (nanoseconds).  Maps are association lists;
   the doubly linked list is a list of element identifiers (order) together
   with a heap assigning each element identifier its stored interface value,
   which models the stable element pointers that the items map shares with the
   list. -/

namespace DCache

/-- A cached value: the engine sees values only through the Value interface
(a Len method returning a Go int).  byteView models the ByteView wrapper that
the facade stores and asserts on; other models any other Value implementation,
with an arbitrary tag and reported length. -/
inductive GoValue where
  | byteView (bytes : List Nat)
  | other (tag : String) (length : Int)
deriving DecidableEq

/-- value.Len() of the Value interface. -/
def GoValue.lenVal : GoValue → Int
  | .byteView bs => (bs.length : Int)
  | .other _ n => n

/-- lru.LruEntry: the inner entry struct holding a key and its value. -/
structure LruEntry where
  key : String
  value : GoValue
deriving DecidableEq

/-- The dynamic type of the interface value held by a container/list element.
add declares a local variable entry of pointer type and calls PushBack with the
address of that variable, so the element holds a value of dynamic type
pointer-to-pointer-to-LruEntry (ptrPtrEntry).  update and removeCache assert
the dynamic type pointer-to-LruEntry (ptrEntry); FindCache asserts the bare
struct type LruEntry (valEntry). -/
inductive NodeVal where
  | ptrPtrEntry (e : LruEntry)
  | ptrEntry (e : LruEntry)
  | valEntry (e : LruEntry)
deriving DecidableEq

/-- The entry a node value wraps, whichever its dynamic type. -/
def NodeVal.entry : NodeVal → LruEntry
  | .ptrPtrEntry e => e
  | .ptrEntry e => e
  | .valEntry e => e

/-- Go runtime panics that the embedded operations can raise. -/
inductive GoPanic where
  | typeAssertionFailed
  | nilLoggerDeref
  | nilStoreCall
deriving DecidableEq

/-- Lookup in an association list (a Go map read m[k]). -/
def alookup {α β : Type} [DecidableEq α] (k : α) : List (α × β) → Option β
  | [] => none
  | (a, b) :: t => if a = k then some b else alookup k t

/-- Assignment in an association list (a Go map write m[k] = v). -/
def aupsert {α β : Type} [DecidableEq α] (k : α) (v : β) : List (α × β) → List (α × β)
  | [] => [(k, v)]
  | (a, b) :: t => if a = k then (k, v) :: t else (a, b) :: aupsert k v t

/-- Deletion from an association list (Go delete(m, k)). -/
def aerase {α β : Type} [DecidableEq α] (k : α) : List (α × β) → List (α × β)
  | [] => []
  | (a, b) :: t => if a = k then aerase k t else (a, b) :: aerase k t

/-- lru.Options: the construction options (maxBytes, onEvicted, cleanupInterval).
The onEvicted callback is opaque to the engine; only its presence matters, so it
is modelled by a Bool, and its invocations are recorded in the state. -/
structure Options where
  maxBytes : Int
  hasOnEvicted : Bool
  cleanupInterval : Int
deriving DecidableEq

/-- time.Minute in nanoseconds. -/
def timeMinute : Int := 60000000000

/-- lru.withDefault: non-positive cleanupInterval defaults to one minute,
non-positive maxBytes defaults to 8 MiB. -/
def withDefault (opt : Options) : Options :=
  { opt with
      cleanupInterval := if opt.cleanupInterval ≤ 0 then timeMinute else opt.cleanupInterval
      maxBytes := if opt.maxBytes ≤ 0 then 8 * 1024 * 1024 else opt.maxBytes }

/-- lru.LruCache: the engine state.  heap models the allocated list elements
(element id to stored interface value), order models the linked list of element
ids with head = front = least recently used, items is the key-to-element map,
expires the key-to-expiry-instant map.  evictedLog records onEvicted
invocations and asyncDeletes records the fire-and-forget background deletions
FindCache spawns.  log is the zap logger field, which no code in the
repository ever assigns, so it stays none (nil). -/
structure LruCache where
  heap : List (Nat × NodeVal)
  order : List Nat
  items : List (String × Nat)
  maxBytes : Int
  currentBytes : Int
  expires : List (String × Int)
  cleanupInterval : Int
  nextId : Nat
  hasOnEvicted : Bool
  evictedLog : List LruEntry
  asyncDeletes : List String
  log : Option Unit
deriving DecidableEq

/-- lru.NewLruCache: applies withDefault and builds the empty engine.  The log
field is not assigned (it stays nil). -/
def NewLruCache (opt : Options) : LruCache :=
  let o := withDefault opt
  { heap := []
    order := []
    items := []
    maxBytes := o.maxBytes
    currentBytes := 0
    expires := []
    cleanupInterval := o.cleanupInterval
    nextId := 0
    hasOnEvicted := o.hasOnEvicted
    evictedLog := []
    asyncDeletes := []
    log := none }

/-- Dereference of a list element (elem.Value).  Elements reachable through
items or order always have a heap binding; the default is never read there. -/
def getNode (s : LruCache) (elemId : Nat) : NodeVal :=
  (alookup elemId s.heap).getD (NodeVal.ptrPtrEntry ⟨"", GoValue.other "undef" 0⟩)

/-- A call on the log field: the source never assigns it, so when it is none
the call dereferences a nil pointer. -/
def logCall (s : LruCache) : Except GoPanic Unit :=
  match s.log with
  | none => Except.error GoPanic.nilLoggerDeref
  | some _ => Except.ok ()

/-- list.MoveToBack semantics: move the element to the back if it is in the
list, otherwise leave the list unchanged. -/
def moveToBack (elemId : Nat) (l : List Nat) : List Nat :=
  if elemId ∈ l then l.erase elemId ++ [elemId] else l

/-- lru.add: build the entry, push the ADDRESS OF THE LOCAL POINTER VARIABLE
onto the back of the list (PushBack receives a pointer to pointer to LruEntry,
hence ptrPtrEntry), and map the key to the new element. -/
def add (s : LruCache) (key : String) (value : GoValue) : LruCache :=
  { s with
      heap := (s.nextId, NodeVal.ptrPtrEntry ⟨key, value⟩) :: s.heap
      order := s.order ++ [s.nextId]
      items := aupsert key s.nextId s.items
      nextId := s.nextId + 1 }

/-- lru.update: asserts the element value to pointer-to-LruEntry (panicking on
any other dynamic type), rejects when the updated size would exceed maxBytes,
otherwise applies the byte delta, replaces the stored value through the
pointer, and moves the element to the back. -/
def update (s : LruCache) (elemId : Nat) (value : GoValue) :
    Except GoPanic (LruCache × Option String) :=
  match getNode s elemId with
  | NodeVal.ptrEntry e =>
      if s.currentBytes + (value.lenVal - e.value.lenVal) > s.maxBytes then
        Except.ok (s, some "update: size after update exceeds maxBytes")
      else
        Except.ok
          ({ s with
              currentBytes := s.currentBytes + (value.lenVal - e.value.lenVal)
              heap := aupsert elemId (NodeVal.ptrEntry ⟨e.key, value⟩) s.heap
              order := moveToBack elemId s.order }, none)
  | _ => Except.error GoPanic.typeAssertionFailed

/-- lru.createExpires: expires[key] = now + cleanupInterval. -/
def createExpires (s : LruCache) (key : String) (now : Int) : LruCache :=
  { s with expires := aupsert key (now + s.cleanupInterval) s.expires }

/-- lru.removeCache: asserts the element value to pointer-to-LruEntry, removes
the element from the list, deletes the key from the items map (the source
deletes it twice), subtracts the entry size from currentBytes, and invokes the
onEvicted callback when configured.  Its error result is the literal nil. -/
def removeCache (s : LruCache) (elemId : Nat) : Except GoPanic (LruCache × Option String) :=
  match getNode s elemId with
  | NodeVal.ptrEntry e =>
      let s1 := { s with
          order := s.order.erase elemId
          items := aerase e.key (aerase e.key s.items)
          currentBytes := s.currentBytes - ((e.key.length : Int) + e.value.lenVal) }
      let s2 := if s1.hasOnEvicted then { s1 with evictedLog := s1.evictedLog ++ [e] } else s1
      Except.ok (s2, none)
  | _ => Except.error GoPanic.typeAssertionFailed

/-- The expiry pass of lru.evict: iterate over the expires map; for each key
whose instant lies before now and which still has a live element, remove it.
A non-nil error from removeCache would be logged (on the nil logger) and
returned early; the ok result carries that early-returned error when present. -/
def expiryPass (now : Int) :
    List (String × Int) → LruCache → Except GoPanic (LruCache × Option String)
  | [], s => Except.ok (s, none)
  | (i, j) :: rest, s =>
      if now > j then
        match alookup i s.items with
        | some elemId =>
            match removeCache s elemId with
            | Except.error p => Except.error p
            | Except.ok (s1, some e) =>
                match logCall s1 with
                | Except.error p => Except.error p
                | Except.ok _ => Except.ok (s1, some ("evict expiry error: " ++ e))
            | Except.ok (s1, none) => expiryPass now rest s1
        | none => expiryPass now rest s
      else expiryPass now rest s

/-- The capacity pass of lru.evict: while currentBytes exceeds maxBytes, the
budget is enabled, and the list is non-empty, remove the front (least recently
used) element.  Each successful iteration shortens order, so order.length + 1
units of fuel always suffice; the zero-fuel case is never reached from evict. -/
def capacityPass : Nat → LruCache → Except GoPanic (LruCache × Option String)
  | 0, s => Except.ok (s, none)
  | fuel + 1, s =>
      if s.currentBytes > s.maxBytes ∧ s.maxBytes > 0 ∧ 0 < s.order.length then
        match s.order with
        | [] => Except.ok (s, none)
        | front :: _ =>
            match removeCache s front with
            | Except.error p => Except.error p
            | Except.ok (s1, some e) =>
                match logCall s1 with
                | Except.error p => Except.error p
                | Except.ok _ => Except.ok (s1, some ("evict capacity error: " ++ e))
            | Except.ok (s1, none) => capacityPass fuel s1
      else Except.ok (s, none)

/-- lru.evict: the expiry pass over a snapshot of the expires map, then the
capacity pass. -/
def evict (now : Int) (s : LruCache) : Except GoPanic (LruCache × Option String) :=
  match expiryPass now s.expires s with
  | Except.error p => Except.error p
  | Except.ok (s1, some e) => Except.ok (s1, some e)
  | Except.ok (s1, none) => capacityPass (s1.order.length + 1) s1

/-- The new-key sequence inside AddAndUpdateCache: add the entry, grow the byte
counter by len(key) + value.Len(), and set the expiry instant. -/
def insertState (s : LruCache) (key : String) (v : GoValue) (now : Int) : LruCache :=
  let s1 := add s key v
  createExpires
    { s1 with currentBytes := s1.currentBytes + ((key.length : Int) + v.lenVal) } key now

/-- lru.AddAndUpdateCache: a nil value is a no-op; an existing key goes through
update (a non-nil update error is logged on the nil logger, then wrapped and
returned); a new key is appended via add, the byte counter grows by the entry
size, the expiry instant is set, and evict runs (a non-nil evict error is
likewise logged on the nil logger, then wrapped and returned). -/
def AddAndUpdateCache (s : LruCache) (key : String) (value : Option GoValue) (now : Int) :
    Except GoPanic (LruCache × Option String) :=
  match value with
  | none => Except.ok (s, none)
  | some v =>
      match alookup key s.items with
      | some elemId =>
          match update s elemId v with
          | Except.error p => Except.error p
          | Except.ok (s1, some e) =>
              match logCall s1 with
              | Except.error p => Except.error p
              | Except.ok _ => Except.ok (s1, some ("AddAndUpdateCache update failed: " ++ e))
          | Except.ok (s1, none) => Except.ok (s1, none)
      | none =>
          match evict now (insertState s key v now) with
          | Except.error p => Except.error p
          | Except.ok (s4, some e) =>
              match logCall s4 with
              | Except.error p => Except.error p
              | Except.ok _ => Except.ok (s4, some ("AddAndUpdateCache evict failed: " ++ e))
          | Except.ok (s4, none) => Except.ok (s4, none)

/-- lru.DeleteCache: deleting an absent key is a no-op; a present key goes
through removeCache, whose non-nil error would be logged (on the nil logger)
and wrapped. -/
def DeleteCache (s : LruCache) (key : String) : Except GoPanic (LruCache × Option String) :=
  match alookup key s.items with
  | some elemId =>
      match removeCache s elemId with
      | Except.error p => Except.error p
      | Except.ok (s1, some e) =>
          match logCall s1 with
          | Except.error p => Except.error p
          | Except.ok _ => Except.ok (s1, some ("DeleteCache remove failed: " ++ e))
      | Except.ok (s1, none) => Except.ok (s1, none)
  | none => Except.ok (s, none)

/-- The expired-key check inside FindCache: when the expiry instant of the key
lies before now, a fire-and-forget background DeleteCache goroutine is spawned
(recorded in asyncDeletes, not executed synchronously). -/
def expireCheck (s : LruCache) (key : String) (now : Int) : LruCache :=
  match alookup key s.expires with
  | some t => if now > t then { s with asyncDeletes := s.asyncDeletes ++ [key] } else s
  | none => s

/-- The move-to-back step of FindCache, taken under the write lock: the element
is moved only if the key is still present (it may have been deleted between the
two lock acquisitions). -/
def touchMove (s : LruCache) (key : String) (elemId : Nat) : LruCache :=
  if (alookup key s.items).isSome then { s with order := moveToBack elemId s.order } else s

/-- lru.FindCache: an absent key returns (nil, false).  For a present key whose
expiry instant lies before now, a fire-and-forget background DeleteCache is
spawned (expireCheck).  The element value is then asserted to the BARE struct
type LruEntry (valEntry); under the write lock the element is moved to the back
only if the key is still present (touchMove).  Returns a pointer to the value
and true. -/
def FindCache (s : LruCache) (key : String) (now : Int) :
    Except GoPanic (LruCache × Option GoValue × Bool) :=
  match alookup key s.items with
  | none => Except.ok (s, none, false)
  | some elemId =>
      match getNode (expireCheck s key now) elemId with
      | NodeVal.valEntry e =>
          Except.ok (touchMove (expireCheck s key now) key elemId, some e.value, true)
      | _ => Except.error GoPanic.typeAssertionFailed

/-- lru.Len: number of live entries. -/
def lruLen (s : LruCache) : Nat := s.order.length

/-- Events driving the reaper loop: a ticker firing at a given instant, or the
close signal. -/
inductive LoopEvent where
  | tick (now : Int)
  | closeSignal
deriving DecidableEq

/-- How the reaper loop ended (none in the loop result means it is still
running, waiting for further events). -/
inductive LoopEnd where
  | closedNormally
  | panicked (p : GoPanic)
  | returnedError (e : String)
deriving DecidableEq

/-- lru.cleanupLoop, parametrized by the sweep it invokes on each tick (the
source calls evict).  On a tick whose sweep panics, the goroutine dies.  On a
tick whose sweep returns a non-nil error, the source logs it (on the nil
logger, a panic) and then RETURNS from the loop, terminating it.  On the close
signal the loop returns nil.  Otherwise it keeps consuming events. -/
def cleanupLoopWith (sweep : Int → LruCache → Except GoPanic (LruCache × Option String)) :
    List LoopEvent → LruCache → LruCache × Option LoopEnd
  | [], s => (s, none)
  | LoopEvent.closeSignal :: _, s => (s, some LoopEnd.closedNormally)
  | LoopEvent.tick now :: rest, s =>
      match sweep now s with
      | Except.error p => (s, some (LoopEnd.panicked p))
      | Except.ok (s1, some e) =>
          match logCall s1 with
          | Except.error p => (s1, some (LoopEnd.panicked p))
          | Except.ok _ => (s1, some (LoopEnd.returnedError ("cleanupLoop error: " ++ e)))
      | Except.ok (s1, none) => cleanupLoopWith sweep rest s1

/-- lru.cleanupLoop as started by startCleanUpRoutine: the sweep is evict. -/
def cleanupLoop : List LoopEvent → LruCache → LruCache × Option LoopEnd :=
  cleanupLoopWith evict

/-- CacheOptions of the facade (cache.go). -/
structure CacheOptions where
  maxBytes : Int
  hasOnEvicted : Bool
  cleanupInterval : Int
deriving DecidableEq

/-- cache.go DefaultCacheOptions. -/
def DefaultCacheOptions : CacheOptions :=
  { maxBytes := 8 * 1024 * 1024
    hasOnEvicted := false
    cleanupInterval := timeMinute }

/-- cache.Cache: the facade.  store is nil until lazy initialization; log is
never assigned by NewCache or anything else, so it stays none (nil). -/
structure Cache where
  store : Option LruCache
  cacheOptions : CacheOptions
  initialized : Bool
  closed : Bool
  hits : Int
  misses : Int
  log : Option Unit
deriving DecidableEq

/-- cache.NewCache: sets only cacheOptions; every other field keeps its zero
value, in particular log stays nil. -/
def NewCache (opt : CacheOptions) : Cache :=
  { store := none
    cacheOptions := opt
    initialized := false
    closed := false
    hits := 0
    misses := 0
    log := none }

/-- The facade options translated to engine options. -/
def toLruOptions (o : CacheOptions) : Options :=
  { maxBytes := o.maxBytes
    hasOnEvicted := o.hasOnEvicted
    cleanupInterval := o.cleanupInterval }

/-- lru.NewStore factory: the lru case and the default case both build an
LruCache. -/
def NewStore (opt : Options) : LruCache := NewLruCache opt

/-- A call on the facade log field (nil, as it is never assigned). -/
def cacheLogCall (c : Cache) : Except GoPanic Unit :=
  match c.log with
  | none => Except.error GoPanic.nilLoggerDeref
  | some _ => Except.ok ()

/-- cache.ensureInitialized: when not yet initialized, builds the store via the
factory, records it, marks the facade initialized, and then logs completion on
the never-assigned nil logger, which panics. -/
def ensureInitialized (c : Cache) : Except GoPanic Cache :=
  if c.initialized then Except.ok c
  else
    let st := NewStore (toLruOptions c.cacheOptions)
    let c1 := { c with store := some st, initialized := true }
    match cacheLogCall c1 with
    | Except.error p => Except.error p
    | Except.ok _ => Except.ok c1

/-- cache.Add: runs lazy initialization when needed, then forwards to
AddAndUpdateCache on the store; a non-nil engine error would be logged on the
nil facade logger.  Calling AddAndUpdateCache on a nil store interface would
itself panic. -/
def cacheAdd (c : Cache) (key : String) (value : Option GoValue) (now : Int) :
    Except GoPanic Cache :=
  match (if c.initialized then Except.ok c else ensureInitialized c) with
  | Except.error p => Except.error p
  | Except.ok c1 =>
      match c1.store with
      | none => Except.error GoPanic.nilStoreCall
      | some st =>
          match AddAndUpdateCache st key value now with
          | Except.error p => Except.error p
          | Except.ok (st1, some _) =>
              match cacheLogCall c1 with
              | Except.error p => Except.error p
              | Except.ok _ => Except.ok { c1 with store := some st1 }
          | Except.ok (st1, none) => Except.ok { c1 with store := some st1 }

/-- cache.Get: a closed facade returns a zero value and false with no counter
change; an uninitialized facade counts a miss; otherwise FindCache runs, a
not-found result counts a miss, a found result FIRST counts a hit and THEN, if
the stored value does not assert to ByteView, ALSO counts a miss and returns
found = false.  (In the source this last assertion is written on the pointer
val of type pointer-to-Value, a non-interface type, which is not even a legal
Go type assertion; it is modelled on the pointed-to value.) -/
def cacheGet (c : Cache) (key : String) (now : Int) :
    Except GoPanic (Cache × GoValue × Bool) :=
  if c.closed then Except.ok (c, GoValue.byteView [], false)
  else if ¬ c.initialized then
    Except.ok ({ c with misses := c.misses + 1 }, GoValue.byteView [], false)
  else
    match c.store with
    | none => Except.error GoPanic.nilStoreCall
    | some st =>
        match FindCache st key now with
        | Except.error p => Except.error p
        | Except.ok (st1, vOpt, found) =>
            if found then
              let c1 := { c with store := some st1, hits := c.hits + 1 }
              match vOpt with
              | some (GoValue.byteView bs) => Except.ok (c1, GoValue.byteView bs, true)
              | _ =>
                  Except.ok ({ c1 with misses := c1.misses + 1 }, GoValue.byteView [], false)
            else
              Except.ok ({ c with store := some st1, misses := c.misses + 1 },
                GoValue.byteView [], false)

/-- All stored node values have the dynamic type
pointer-to-pointer-to-LruEntry, the only dynamic type the add of the source
ever stores in a list element. -/
def allPtrPtr (s : LruCache) : Prop :=
  ∀ p ∈ s.heap, ∃ e, p.2 = NodeVal.ptrPtrEntry e

/-- The inductive invariant of reachable engine states: positive budget, byte
counter within budget, all node values of the dynamic type that add stores,
items map and recency list in sync, no duplicate elements, and freshness of
element identifiers. -/
structure Inv (s : LruCache) : Prop where
  maxPos : 0 < s.maxBytes
  budget : s.currentBytes ≤ s.maxBytes
  ptrptr : allPtrPtr s
  itemsOrder : ∀ k elemId, alookup k s.items = some elemId →
      elemId ∈ s.order ∧ ∃ nv, alookup elemId s.heap = some nv ∧ nv.entry.key = k
  orderItems : ∀ elemId ∈ s.order, ∃ k, alookup k s.items = some elemId
  orderNodup : s.order.Nodup
  orderFresh : ∀ elemId ∈ s.order, elemId < s.nextId
  heapFresh : ∀ p ∈ s.heap, p.1 < s.nextId

/-- Engine states reachable from a freshly constructed engine by COMPLETED
operations: insert-or-update, delete, lookup-with-touch, and sweep steps that
return normally (an operation that panics never returns control to the
caller). -/
inductive Reachable : LruCache → Prop where
  | init (opt : Options) : Reachable (NewLruCache opt)
  | addStep (s : LruCache) (k : String) (v : Option GoValue) (now : Int) (s1 : LruCache)
      (r : Option String) :
      Reachable s → AddAndUpdateCache s k v now = Except.ok (s1, r) → Reachable s1
  | delStep (s : LruCache) (k : String) (s1 : LruCache) (r : Option String) :
      Reachable s → DeleteCache s k = Except.ok (s1, r) → Reachable s1
  | findStep (s : LruCache) (k : String) (now : Int) (t : LruCache × Option GoValue × Bool) :
      Reachable s → FindCache s k now = Except.ok t → Reachable t.1
  | sweepStep (s : LruCache) (now : Int) (s1 : LruCache) (r : Option String) :
      Reachable s → evict now s = Except.ok (s1, r) → Reachable s1

/-- The keys of the entries along the recency sequence, in recency order. -/
def orderKeys (s : LruCache) : List String :=
  s.order.filterMap (fun elemId => (alookup elemId s.heap).map (fun nv => nv.entry.key))

/- Concrete states used by the counterexample and witness theorems below. -/

/-- Demo engine options: a 100 byte budget and a 50 ns cleanup interval (both
positive, so withDefault keeps them). -/
def demoOpts : Options :=
  { maxBytes := 100
    hasOnEvicted := false
    cleanupInterval := 50 }

/-- The freshly constructed demo engine. -/
def s0 : LruCache := NewLruCache demoOpts

/-- The engine after the first (successful) insertion of key a with a one-byte
ByteView at time 0: the entry occupies 1 + 1 = 2 bytes and expires at 50.
Note the stored node value has dynamic type pointer-to-pointer-to-LruEntry. -/
def sA : LruCache :=
  { heap := [(0, NodeVal.ptrPtrEntry ⟨"a", GoValue.byteView [7]⟩)]
    order := [0]
    items := [("a", 0)]
    maxBytes := 100
    currentBytes := 2
    expires := [("a", 50)]
    cleanupInterval := 50
    nextId := 1
    hasOnEvicted := false
    evictedLog := []
    asyncDeletes := []
    log := none }

/-- The capacity-rejection scenario of the spec: budget 15, an unrelated key u
occupying 5 bytes and key K occupying 10 bytes.  Reached by two successful
insertions at time 0 into a fresh engine with maxBytes 15. -/
def sC3 : LruCache :=
  { heap := [(1, NodeVal.ptrPtrEntry ⟨"K", GoValue.byteView (List.replicate 9 0)⟩),
             (0, NodeVal.ptrPtrEntry ⟨"u", GoValue.other "pad" 4⟩)]
    order := [0, 1]
    items := [("u", 0), ("K", 1)]
    maxBytes := 15
    currentBytes := 15
    expires := [("u", 50), ("K", 50)]
    cleanupInterval := 50
    nextId := 2
    hasOnEvicted := false
    evictedLog := []
    asyncDeletes := []
    log := none }

/-- Engine options for the capacity-rejection scenario: budget 15 bytes. -/
def capOpts : Options :=
  { maxBytes := 15
    hasOnEvicted := false
    cleanupInterval := 50 }

/-- A hypothetical engine state whose single node holds the dynamic type
pointer-to-LruEntry that update and removeCache assert (the add of the source
never produces such a node, storing a pointer to pointer instead — see the
theorems on C1): key K with a value of length 5, 6 bytes in use. -/
def sPE : LruCache :=
  { heap := [(0, NodeVal.ptrEntry ⟨"K", GoValue.other "blob" 5⟩)]
    order := [0]
    items := [("K", 0)]
    maxBytes := 100
    currentBytes := 6
    expires := [("K", 50)]
    cleanupInterval := 50
    nextId := 1
    hasOnEvicted := false
    evictedLog := []
    asyncDeletes := []
    log := none }

/-- The state sPE after a successful update of K to a value of length 7. -/
def sPE1 : LruCache :=
  { sPE with
      currentBytes := 8
      heap := [(0, NodeVal.ptrEntry ⟨"K", GoValue.other "blob2" 7⟩)] }

/-- A hypothetical engine state whose single node holds the bare LruEntry value
that FindCache asserts, with a stored value that is NOT a ByteView; used to
exhibit the hit-and-miss double counting of the facade Get. -/
def sVE : LruCache :=
  { heap := [(0, NodeVal.valEntry ⟨"K", GoValue.other "blob" 5⟩)]
    order := [0]
    items := [("K", 0)]
    maxBytes := 100
    currentBytes := 6
    expires := [("K", 200)]
    cleanupInterval := 50
    nextId := 1
    hasOnEvicted := false
    evictedLog := []
    asyncDeletes := []
    log := none }

/-- Demo facade options matching demoOpts. -/
def demoCacheOpts : CacheOptions :=
  { maxBytes := 100
    hasOnEvicted := false
    cleanupInterval := 50 }

/-- An initialized, non-closed facade whose store contains key a (the engine
state sA). -/
def cInit : Cache :=
  { store := some sA
    cacheOptions := demoCacheOpts
    initialized := true
    closed := false
    hits := 0
    misses := 0
    log := none }

/-- An initialized, non-closed facade whose store is the hypothetical sVE. -/
def cVE : Cache :=
  { store := some sVE
    cacheOptions := demoCacheOpts
    initialized := true
    closed := false
    hits := 0
    misses := 0
    log := none }

/-- Non-positive engine options, exercising the withDefault defaulting. -/
def negOpts : Options :=
  { maxBytes := -1
    hasOnEvicted := false
    cleanupInterval := 0 }

/-- A sweep stub that reports a failure, used only to witness the reaper-loop
error handling. -/
def constErrSweep : Int → LruCache → Except GoPanic (LruCache × Option String) :=
  fun _ s => Except.ok (s, some "stub sweep failure")

/- Helper lemmas. -/

theorem alookup_mem {α β : Type} [DecidableEq α] {k : α} {v : β} :
    ∀ {l : List (α × β)}, alookup k l = some v → (k, v) ∈ l := by
  intro l
  induction l with
  | nil => intro h; simp [alookup] at h
  | cons p t ih =>
      intro h
      obtain ⟨a, b⟩ := p
      by_cases hak : a = k
      · subst hak
        simp [alookup] at h
        subst h
        exact List.mem_cons_self _ _
      · simp [alookup, hak] at h
        exact List.mem_cons_of_mem _ (ih h)

theorem alookup_aupsert_self {α β : Type} [DecidableEq α] (k : α) (v : β) :
    ∀ l : List (α × β), alookup k (aupsert k v l) = some v := by
  intro l
  induction l with
  | nil => simp [alookup, aupsert]
  | cons p t ih =>
      obtain ⟨a, b⟩ := p
      by_cases hak : a = k
      · subst hak; simp [alookup, aupsert]
      · simp [alookup, aupsert, hak, ih]

theorem alookup_aupsert_ne {α β : Type} [DecidableEq α] {k k2 : α} (hne : k2 ≠ k) (v : β) :
    ∀ l : List (α × β), alookup k2 (aupsert k v l) = alookup k2 l := by
  have hkk : ¬ k = k2 := fun h => hne h.symm
  intro l
  induction l with
  | nil => simp [alookup, aupsert, hkk]
  | cons p t ih =>
      obtain ⟨a, b⟩ := p
      by_cases hak : a = k
      · subst hak
        simp [alookup, aupsert, hkk]
      · by_cases hak2 : a = k2
        · subst hak2; simp [alookup, aupsert, hak]
        · simp [alookup, aupsert, hak, hak2, ih]

theorem getNode_ptrptr {s : LruCache} (hpp : allPtrPtr s) (elemId : Nat) :
    ∃ e, getNode s elemId = NodeVal.ptrPtrEntry e := by
  unfold getNode
  cases hl : alookup elemId s.heap with
  | none => exact ⟨_, rfl⟩
  | some nv =>
      obtain ⟨e, he⟩ := hpp _ (alookup_mem hl)
      refine ⟨e, ?_⟩
      simpa using he

theorem removeCache_panics {s : LruCache} (hpp : allPtrPtr s) (elemId : Nat) :
    removeCache s elemId = Except.error GoPanic.typeAssertionFailed := by
  obtain ⟨e, he⟩ := getNode_ptrptr hpp elemId
  unfold removeCache
  rw [he]

theorem update_panics {s : LruCache} (hpp : allPtrPtr s) (elemId : Nat) (v : GoValue) :
    update s elemId v = Except.error GoPanic.typeAssertionFailed := by
  obtain ⟨e, he⟩ := getNode_ptrptr hpp elemId
  unfold update
  rw [he]

theorem expiryPass_ok (now : Int) (l : List (String × Int)) :
    ∀ s s1 r, allPtrPtr s → expiryPass now l s = Except.ok (s1, r) →
      s1 = s ∧ r = none := by
  induction l with
  | nil =>
      intro s s1 r _ h
      unfold expiryPass at h
      injection h with h
      injection h with h1 h2
      exact ⟨h1.symm, h2.symm⟩
  | cons p rest ih =>
      intro s s1 r hpp h
      obtain ⟨i, j⟩ := p
      unfold expiryPass at h
      split at h
      · split at h
        · rename_i elemId hl
          rw [removeCache_panics hpp elemId] at h
          simp at h
        · exact ih s s1 r hpp h
      · exact ih s s1 r hpp h

theorem capacityPass_ok (n : Nat) (s s1 : LruCache) (r : Option String)
    (hpp : allPtrPtr s) (h : capacityPass (n + 1) s = Except.ok (s1, r)) :
    s1 = s ∧ r = none ∧
      ¬(s.currentBytes > s.maxBytes ∧ s.maxBytes > 0 ∧ 0 < s.order.length) := by
  unfold capacityPass at h
  split at h
  · rename_i hguard
    split at h
    · rename_i horder
      rw [horder] at hguard
      simp at hguard
    · rename_i front tl horder
      rw [removeCache_panics hpp front] at h
      simp at h
  · rename_i hguard
    injection h with h
    injection h with h1 h2
    exact ⟨h1.symm, h2.symm, hguard⟩

theorem evict_ok (now : Int) (s s1 : LruCache) (r : Option String)
    (hpp : allPtrPtr s) (h : evict now s = Except.ok (s1, r)) :
    s1 = s ∧ r = none ∧
      ¬(s.currentBytes > s.maxBytes ∧ s.maxBytes > 0 ∧ 0 < s.order.length) := by
  unfold evict at h
  split at h
  · simp at h
  · rename_i s2 e hep
    obtain ⟨hs2, hr2⟩ := expiryPass_ok now s.expires s s2 (some e) hpp hep
    simp at hr2
  · rename_i s2 hep
    obtain ⟨hs2, _⟩ := expiryPass_ok now s.expires s s2 none hpp hep
    rw [hs2] at h
    exact capacityPass_ok _ s s1 r hpp h

theorem deleteCache_ok (s : LruCache) (k : String) (s1 : LruCache) (r : Option String)
    (hpp : allPtrPtr s) (h : DeleteCache s k = Except.ok (s1, r)) :
    s1 = s ∧ r = none ∧ alookup k s.items = none := by
  unfold DeleteCache at h
  split at h
  · rename_i elemId hl
    rw [removeCache_panics hpp elemId] at h
    simp at h
  · rename_i hl
    injection h with h
    injection h with h1 h2
    exact ⟨h1.symm, h2.symm, hl⟩

theorem findCache_ok (s : LruCache) (k : String) (now : Int)
    (t : LruCache × Option GoValue × Bool)
    (hpp : allPtrPtr s) (h : FindCache s k now = Except.ok t) :
    t = (s, none, false) ∧ alookup k s.items = none := by
  have hheap : (expireCheck s k now).heap = s.heap := by
    unfold expireCheck
    split
    · split <;> rfl
    · rfl
  have hpp0 : allPtrPtr (expireCheck s k now) := by
    unfold allPtrPtr
    rw [hheap]
    exact hpp
  unfold FindCache at h
  split at h
  · rename_i hl
    injection h with h
    exact ⟨h.symm, hl⟩
  · rename_i elemId hl
    obtain ⟨e, he⟩ := getNode_ptrptr hpp0 elemId
    rw [he] at h
    simp at h

theorem insertState_heap (s : LruCache) (k : String) (v : GoValue) (now : Int) :
    (insertState s k v now).heap = (s.nextId, NodeVal.ptrPtrEntry ⟨k, v⟩) :: s.heap := rfl

theorem insertState_order (s : LruCache) (k : String) (v : GoValue) (now : Int) :
    (insertState s k v now).order = s.order ++ [s.nextId] := rfl

theorem insertState_items (s : LruCache) (k : String) (v : GoValue) (now : Int) :
    (insertState s k v now).items = aupsert k s.nextId s.items := rfl

theorem insertState_maxBytes (s : LruCache) (k : String) (v : GoValue) (now : Int) :
    (insertState s k v now).maxBytes = s.maxBytes := rfl

theorem insertState_nextId (s : LruCache) (k : String) (v : GoValue) (now : Int) :
    (insertState s k v now).nextId = s.nextId + 1 := rfl

theorem insertState_expires (s : LruCache) (k : String) (v : GoValue) (now : Int) :
    (insertState s k v now).expires = aupsert k (now + s.cleanupInterval) s.expires := rfl

theorem insertState_currentBytes (s : LruCache) (k : String) (v : GoValue) (now : Int) :
    (insertState s k v now).currentBytes
      = s.currentBytes + ((k.length : Int) + v.lenVal) := rfl

theorem inv_init (opt : Options) : Inv (NewLruCache opt) := by
  have hmax : 0 < (NewLruCache opt).maxBytes := by
    show 0 < (withDefault opt).maxBytes
    unfold withDefault
    dsimp only
    split
    · decide
    · omega
  refine ⟨hmax, ?_, ?_, ?_, ?_, ?_, ?_, ?_⟩
  · show (0 : Int) ≤ (NewLruCache opt).maxBytes
    omega
  · intro p hp
    simp [NewLruCache] at hp
  · intro k elemId hlk
    simp [NewLruCache, alookup] at hlk
  · intro elemId hmem
    simp [NewLruCache] at hmem
  · simp [NewLruCache]
  · intro elemId hmem
    simp [NewLruCache] at hmem
  · intro p hp
    simp [NewLruCache] at hp

theorem inv_insertState (s : LruCache) (k : String) (v : GoValue) (now : Int)
    (hInv : Inv s) (hAbsent : alookup k s.items = none)
    (hBudget : (insertState s k v now).currentBytes ≤ (insertState s k v now).maxBytes) :
    Inv (insertState s k v now) := by
  have hNewFresh : s.nextId ∉ s.order := fun hmem =>
    absurd (hInv.orderFresh s.nextId hmem) (lt_irrefl s.nextId)
  refine ⟨?_, hBudget, ?_, ?_, ?_, ?_, ?_, ?_⟩
  · rw [insertState_maxBytes]; exact hInv.maxPos
  · intro p hp
    rw [insertState_heap] at hp
    rcases List.mem_cons.mp hp with hh | ht
    · exact ⟨⟨k, v⟩, by rw [hh]⟩
    · exact hInv.ptrptr p ht
  · intro k2 elemId hlk
    rw [insertState_items] at hlk
    rw [insertState_order, insertState_heap]
    by_cases hk : k2 = k
    · subst hk
      rw [alookup_aupsert_self] at hlk
      injection hlk with hlk
      subst hlk
      refine ⟨List.mem_append_right _ (List.mem_singleton.mpr rfl), ?_⟩
      exact ⟨NodeVal.ptrPtrEntry ⟨k2, v⟩, by simp [alookup], rfl⟩
    · rw [alookup_aupsert_ne hk] at hlk
      obtain ⟨hmem, nv, hnv, hkey⟩ := hInv.itemsOrder k2 elemId hlk
      refine ⟨List.mem_append_left _ hmem, nv, ?_, hkey⟩
      have hne : s.nextId ≠ elemId := by
        have := hInv.orderFresh elemId hmem
        omega
      simp [alookup, hne]
      exact hnv
  · intro elemId hmem
    rw [insertState_order] at hmem
    rw [insertState_items]
    rcases List.mem_append.mp hmem with hold | hnew
    · obtain ⟨k2, hk2⟩ := hInv.orderItems elemId hold
      have hk2ne : k2 ≠ k := by
        intro hkk
        rw [hkk, hAbsent] at hk2
        exact Option.noConfusion hk2
      exact ⟨k2, by rw [alookup_aupsert_ne hk2ne]; exact hk2⟩
    · have : elemId = s.nextId := List.mem_singleton.mp hnew
      subst this
      exact ⟨k, alookup_aupsert_self k s.nextId s.items⟩
  · rw [insertState_order]
    refine List.Nodup.append hInv.orderNodup (List.nodup_singleton _) ?_
    intro a ha hb
    rw [List.mem_singleton] at hb
    subst hb
    exact hNewFresh ha
  · intro elemId hmem
    rw [insertState_order] at hmem
    rw [insertState_nextId]
    rcases List.mem_append.mp hmem with hold | hnew
    · have := hInv.orderFresh elemId hold
      omega
    · have : elemId = s.nextId := List.mem_singleton.mp hnew
      omega
  · intro p hp
    rw [insertState_heap] at hp
    rw [insertState_nextId]
    rcases List.mem_cons.mp hp with hh | ht
    · rw [hh]
      omega
    · have := hInv.heapFresh p ht
      omega

theorem insertState_ptrptr (s : LruCache) (k : String) (v : GoValue) (now : Int)
    (hpp : allPtrPtr s) : allPtrPtr (insertState s k v now) := by
  intro p hp
  rw [insertState_heap] at hp
  rcases List.mem_cons.mp hp with hh | ht
  · exact ⟨⟨k, v⟩, by rw [hh]⟩
  · exact hpp p ht

theorem addAndUpdate_ok_inv (s : LruCache) (k : String) (v : Option GoValue) (now : Int)
    (s1 : LruCache) (r : Option String) (hInv : Inv s)
    (h : AddAndUpdateCache s k v now = Except.ok (s1, r)) : Inv s1 := by
  cases v with
  | none =>
      unfold AddAndUpdateCache at h
      injection h with h
      injection h with h1 h2
      rw [← h1]
      exact hInv
  | some v =>
      unfold AddAndUpdateCache at h
      cases hl : alookup k s.items with
      | some elemId =>
          simp [hl, update_panics hInv.ptrptr elemId v] at h
      | none =>
        have hppS : allPtrPtr (insertState s k v now) :=
          insertState_ptrptr s k v now hInv.ptrptr
        simp only [hl] at h
        split at h
        · simp at h
        · rename_i s4 e hev
          obtain ⟨_, hr, _⟩ := evict_ok now (insertState s k v now) s4 (some e) hppS hev
          exact Option.noConfusion hr
        · rename_i s4 hev
          obtain ⟨hs4, _, hguard⟩ := evict_ok now (insertState s k v now) s4 none hppS hev
          injection h with h
          injection h with h1 h2
          rw [← h1, hs4]
          refine inv_insertState s k v now hInv hl ?_
          by_contra hgt
          refine hguard ⟨?_, ?_, ?_⟩
          · omega
          · rw [insertState_maxBytes]
            exact hInv.maxPos
          · rw [insertState_order]
            simp

theorem reachable_inv {s : LruCache} (h : Reachable s) : Inv s := by
  induction h with
  | init opt => exact inv_init opt
  | addStep s k v now s1 r _ hEq ih => exact addAndUpdate_ok_inv s k v now s1 r ih hEq
  | delStep s k s1 r _ hEq ih =>
      obtain ⟨hs1, _, _⟩ := deleteCache_ok s k s1 r ih.ptrptr hEq
      rw [hs1]
      exact ih
  | findStep s k now t _ hEq ih =>
      obtain ⟨ht, _⟩ := findCache_ok s k now t ih.ptrptr hEq
      rw [ht]
      exact ih
  | sweepStep s now s1 r _ hEq ih =>
      obtain ⟨hs1, _, _⟩ := evict_ok now s s1 r ih.ptrptr hEq
      rw [hs1]
      exact ih

theorem removeCache_expires (s : LruCache) (elemId : Nat) (s2 : LruCache) (r : Option String)
    (h : removeCache s elemId = Except.ok (s2, r)) : s2.expires = s.expires := by
  unfold removeCache at h
  split at h
  · injection h with h
    injection h with h1 _
    rw [← h1]
    split <;> rfl
  · simp at h

theorem expiryPass_expires (now : Int) (l : List (String × Int)) :
    ∀ s s2 r, expiryPass now l s = Except.ok (s2, r) → s2.expires = s.expires := by
  induction l with
  | nil =>
      intro s s2 r h
      unfold expiryPass at h
      injection h with h
      injection h with h1 _
      rw [← h1]
  | cons p rest ih =>
      intro s s2 r h
      obtain ⟨i, j⟩ := p
      unfold expiryPass at h
      split at h
      · split at h
        · rename_i elemId hl
          split at h
          · simp at h
          · rename_i s3 e hrm
            split at h
            · simp at h
            · injection h with h
              injection h with h1 _
              rw [← h1]
              exact removeCache_expires s elemId s3 (some e) hrm
          · rename_i s3 hrm
            rw [ih s3 s2 r h]
            exact removeCache_expires s elemId s3 none hrm
        · exact ih s s2 r h
      · exact ih s s2 r h

theorem capacityPass_expires (n : Nat) :
    ∀ s s2 r, capacityPass n s = Except.ok (s2, r) → s2.expires = s.expires := by
  induction n with
  | zero =>
      intro s s2 r h
      unfold capacityPass at h
      injection h with h
      injection h with h1 _
      rw [← h1]
  | succ n ih =>
      intro s s2 r h
      unfold capacityPass at h
      split at h
      · split at h
        · injection h with h
          injection h with h1 _
          rw [← h1]
        · rename_i front tl horder
          split at h
          · simp at h
          · rename_i s3 e hrm
            split at h
            · simp at h
            · injection h with h
              injection h with h1 _
              rw [← h1]
              exact removeCache_expires s front s3 (some e) hrm
          · rename_i s3 hrm
            rw [ih s3 s2 r h]
            exact removeCache_expires s front s3 none hrm
      · injection h with h
        injection h with h1 _
        rw [← h1]

theorem evict_expires (now : Int) (s s2 : LruCache) (r : Option String)
    (h : evict now s = Except.ok (s2, r)) : s2.expires = s.expires := by
  unfold evict at h
  split at h
  · simp at h
  · rename_i s3 e hep
    injection h with h
    injection h with h1 _
    rw [← h1]
    exact expiryPass_expires now s.expires s s3 (some e) hep
  · rename_i s3 hep
    rw [capacityPass_expires _ s3 s2 r h]
    exact expiryPass_expires now s.expires s s3 none hep

theorem update_frame (s : LruCache) (elemId : Nat) (v : GoValue) (s2 : LruCache)
    (r : Option String) (h : update s elemId v = Except.ok (s2, r)) :
    s2.expires = s.expires ∧ s2.items = s.items ∧ s2.maxBytes = s.maxBytes ∧
    s2.cleanupInterval = s.cleanupInterval ∧ s2.nextId = s.nextId ∧
    s2.evictedLog = s.evictedLog ∧ s2.asyncDeletes = s.asyncDeletes := by
  unfold update at h
  split at h
  · split at h
    · injection h with h
      injection h with h1 _
      rw [← h1]
      exact ⟨rfl, rfl, rfl, rfl, rfl, rfl, rfl⟩
    · injection h with h
      injection h with h1 _
      rw [← h1]
      exact ⟨rfl, rfl, rfl, rfl, rfl, rfl, rfl⟩
  · simp at h

/- Claim theorems. -/

/-- C1: the claim states that no engine operation (insert-or-update,
lookup-with-touch, delete, sweep) panics on caller-supplied input, in
particular that every retrieval of a stored entry from a recency-sequence node
succeeds.  The code violates this: add stores a value of dynamic type
pointer-to-pointer-to-LruEntry in the node (PushBack of the address of the
local pointer variable), so the type assertions of FindCache, removeCache and
update all fail at runtime.  On the reachable state sA (one key a inserted
into a fresh engine), lookup, delete, and update of that key all panic. -/
theorem engine_ops_panic_on_stored_nodes :
    FindCache sA "a" 10 = Except.error GoPanic.typeAssertionFailed ∧
      DeleteCache sA "a" = Except.error GoPanic.typeAssertionFailed ∧
      AddAndUpdateCache sA "a" (some (GoValue.byteView [1, 2])) 10
        = Except.error GoPanic.typeAssertionFailed :=
  ⟨rfl, rfl, rfl⟩

/-- C2: in every state reachable from a fresh engine by completed
insert-or-update, delete, lookup, and sweep operations, the byte counter does
not exceed the byte budget, the budget is positive (construction defaults a
non-positive configured maxBytes to 8 MiB, so the capacity pass is never
disabled), and a non-positive configured maxBytes indeed yields 8 MiB. -/
theorem byte_budget_invariant (s : LruCache) (h : Reachable s) :
    s.currentBytes ≤ s.maxBytes ∧ 0 < s.maxBytes ∧
      (NewLruCache negOpts).maxBytes = 8 * 1024 * 1024 :=
  ⟨(reachable_inv h).budget, (reachable_inv h).maxPos, rfl⟩

/-- Witness for C2: the invariant instantiated at the concrete reachable state
sA, whose reachability is established by one completed insertion into a fresh
engine. -/
theorem byte_budget_invariant_witness :
    sA.currentBytes ≤ sA.maxBytes ∧ 0 < sA.maxBytes ∧
      (NewLruCache negOpts).maxBytes = 8 * 1024 * 1024 :=
  byte_budget_invariant sA
    (Reachable.addStep s0 "a" (some (GoValue.byteView [7])) 0 sA none
      (Reachable.init demoOpts) rfl)

/-- C3: the claim states that a capacity-exceeding update of an existing key
returns the CapacityExceeded error and leaves the engine unchanged, the prior
value still visible.  The code violates this: on the reachable state sC3
(budget 15, unrelated key u of size 5, key K of size 10, per the round-trip
scenario of the spec), updating K to size 20 panics at the failed type
assertion in update before the capacity check is even reached; and even on a
hypothetical state sPE whose node carries the pointer-to-LruEntry that update
expects, the rejected update panics dereferencing the nil logger while logging
the error, instead of returning it. -/
theorem capacity_rejected_update_panics :
    AddAndUpdateCache sC3 "K" (some (GoValue.byteView (List.replicate 19 0))) 10
        = Except.error GoPanic.typeAssertionFailed ∧
      AddAndUpdateCache sPE "K" (some (GoValue.other "big" 200)) 10
        = Except.error GoPanic.nilLoggerDeref :=
  ⟨rfl, rfl⟩

/-- C4: the claim states that sweep always runs an expiry pass deleting every
expired live entry (invoking the eviction callback) and then a capacity pass.
The code violates this: on the reachable state sA with its single entry
expired (expiry instant 50, now 60), the sweep panics at the failed type
assertion in removeCache during the expiry pass; nothing is deleted, no
callback runs, and the capacity pass is never reached. -/
theorem sweep_expiry_pass_panics :
    evict 60 sA = Except.error GoPanic.typeAssertionFailed := rfl

/-- C5: the claim states that when a sweep invoked from the reaper loop fails,
the loop logs and keeps running.  The code violates this: the loop body, on any
sweep invocation returning a non-nil error, logs it (on the nil logger, itself
a panic) and then returns, ending the loop — the loop result is always a
termination, never a continuation to the remaining ticks; and with the actual
evict as the sweep, a tick on the reachable state sA with its entry expired
kills the loop with the type-assertion panic even though a further tick is
pending. -/
theorem sweep_failure_ends_reaper_loop
    (sweep : Int → LruCache → Except GoPanic (LruCache × Option String))
    (now : Int) (rest : List LoopEvent) (s s1 : LruCache) (e : String)
    (h : sweep now s = Except.ok (s1, some e)) :
    (cleanupLoopWith sweep (LoopEvent.tick now :: rest) s).2 ≠ none ∧
      cleanupLoop [LoopEvent.tick 60, LoopEvent.tick 120] sA
        = (sA, some (LoopEnd.panicked GoPanic.typeAssertionFailed)) := by
  constructor
  · unfold cleanupLoopWith
    rw [h]
    simp only [logCall]
    split <;> simp
  · rfl

/-- Witness for C5: a tick whose sweep reports a failure terminates the loop. -/
theorem sweep_failure_ends_reaper_loop_witness :
    (cleanupLoopWith constErrSweep [LoopEvent.tick 0] s0).2 ≠ none ∧
      cleanupLoop [LoopEvent.tick 60, LoopEvent.tick 120] sA
        = (sA, some (LoopEnd.panicked GoPanic.typeAssertionFailed)) :=
  sweep_failure_ends_reaper_loop constErrSweep 0 [] s0 s0 "stub sweep failure" rfl

/-- C6: over every engine state, a completed insert-or-update of a present key
leaves the expiry map — and the items map, budget, interval, id counter,
eviction log and async-deletion log — unchanged (the update only moves the
entry in recency order and changes bytes and value), while an insert of an
absent key sets the expiry instant of the key to now + cleanupInterval. -/
theorem update_preserves_expiry (s : LruCache) (k : String) (v : GoValue) (now : Int)
    (s1 : LruCache) (r : Option String)
    (h : AddAndUpdateCache s k (some v) now = Except.ok (s1, r)) :
    ((alookup k s.items).isSome →
        s1.expires = s.expires ∧ s1.items = s.items ∧ s1.maxBytes = s.maxBytes ∧
        s1.cleanupInterval = s.cleanupInterval ∧ s1.nextId = s.nextId ∧
        s1.evictedLog = s.evictedLog ∧ s1.asyncDeletes = s.asyncDeletes) ∧
    (alookup k s.items = none →
        alookup k s1.expires = some (now + s.cleanupInterval)) := by
  constructor
  · intro hsome
    obtain ⟨elemId, hl⟩ := Option.isSome_iff_exists.mp hsome
    unfold AddAndUpdateCache at h
    simp only [hl] at h
    split at h
    · simp at h
    · rename_i s3 e hup
      split at h
      · simp at h
      · injection h with h
        injection h with h1 _
        rw [← h1]
        exact update_frame s elemId v s3 (some e) hup
    · rename_i s3 hup
      injection h with h
      injection h with h1 _
      rw [← h1]
      exact update_frame s elemId v s3 none hup
  · intro hnone
    unfold AddAndUpdateCache at h
    simp only [hnone] at h
    split at h
    · simp at h
    · rename_i s4 e hev
      split at h
      · simp at h
      · injection h with h
        injection h with h1 _
        rw [← h1, evict_expires now (insertState s k v now) s4 (some e) hev,
          insertState_expires]
        exact alookup_aupsert_self _ _ _
    · rename_i s4 hev
      injection h with h
      injection h with h1 _
      rw [← h1, evict_expires now (insertState s k v now) s4 none hev, insertState_expires]
      exact alookup_aupsert_self _ _ _

/-- Witness for C6: a successful update of key K on the state sPE (whose node
carries the pointer-to-LruEntry that update expects) leaves the expiry map and
the rest of the non-recency state unchanged, and the first insertion of key a
into the fresh engine s0 sets its expiry instant to 0 + cleanupInterval. -/
theorem update_preserves_expiry_witness :
    (sPE1.expires = sPE.expires ∧ sPE1.items = sPE.items ∧ sPE1.maxBytes = sPE.maxBytes ∧
        sPE1.cleanupInterval = sPE.cleanupInterval ∧ sPE1.nextId = sPE.nextId ∧
        sPE1.evictedLog = sPE.evictedLog ∧ sPE1.asyncDeletes = sPE.asyncDeletes) ∧
      alookup "a" sA.expires = some (0 + s0.cleanupInterval) :=
  ⟨(update_preserves_expiry sPE "K" (GoValue.other "blob2" 7) 0 sPE1 none rfl).1 (by rfl),
    (update_preserves_expiry s0 "a" (GoValue.byteView [7]) 0 sA none rfl).2 rfl⟩

/-- C7: the claim states that a lookup of a present but expired key still
returns the stored value with found true while scheduling an asynchronous
removal.  The code violates this: on the reachable state sA with its entry
expired (expiry instant 50, now 60), FindCache does spawn the fire-and-forget
background deletion but then panics at the failed bare-LruEntry type assertion
instead of returning the value. -/
theorem expired_lookup_panics :
    FindCache sA "a" 60 = Except.error GoPanic.typeAssertionFailed ∧
      (expireCheck sA "a" 60).asyncDeletes = ["a"] :=
  ⟨rfl, rfl⟩

/-- C8: in every state reachable from a fresh engine by completed operations,
a key has a binding in the items map exactly when it is the key of an entry of
the recency sequence: the two structures hold the same key set at every
quiescent point. -/
theorem index_sequence_parity (s : LruCache) (h : Reachable s) (k : String) :
    (alookup k s.items).isSome ↔ k ∈ orderKeys s := by
  constructor
  · intro hsome
    obtain ⟨elemId, hl⟩ := Option.isSome_iff_exists.mp hsome
    obtain ⟨hmem, nv, hnv, hkey⟩ := (reachable_inv h).itemsOrder k elemId hl
    refine List.mem_filterMap.mpr ⟨elemId, hmem, ?_⟩
    rw [hnv]
    simp [hkey]
  · intro hmem
    obtain ⟨elemId, hmemo, hmap⟩ := List.mem_filterMap.mp hmem
    obtain ⟨k2, hk2⟩ := (reachable_inv h).orderItems elemId hmemo
    obtain ⟨_, nv, hnv, hkey⟩ := (reachable_inv h).itemsOrder k2 elemId hk2
    rw [hnv] at hmap
    simp at hmap
    have hkk : k2 = k := by rw [← hkey, hmap]
    rw [← hkk, hk2]
    rfl

/-- Witness for C8: parity instantiated at the concrete reachable state sA and
key a. -/
theorem index_sequence_parity_witness :
    (alookup "a" sA.items).isSome ↔ "a" ∈ orderKeys sA :=
  index_sequence_parity sA
    (Reachable.addStep s0 "a" (some (GoValue.byteView [7])) 0 sA none
      (Reachable.init demoOpts) rfl) "a"

/-- C9: the claim states that every facade Get on an initialized, non-closed
cache increments exactly one of the hit and miss counters, and that a stored
value of an unexpected type is counted as a miss only.  The code violates
this: on the facade cInit over the reachable store sA, Get panics inside the
engine type assertion and increments neither counter; and on the facade cVE
over a store whose node carries the bare LruEntry that FindCache expects with
a non-ByteView value, Get increments the hit counter AND the miss counter
while returning found false. -/
theorem facade_get_miscounts :
    cacheGet cInit "a" 10 = Except.error GoPanic.typeAssertionFailed ∧
      (cacheGet cVE "K" 10).toOption.map (fun r => (r.1.hits, r.1.misses, r.2.2))
        = some (1, 1, false) :=
  ⟨rfl, rfl⟩

/-- C10: neither the facade constructor nor the engine constructor assigns the
logger field (both leave it none, the nil pointer), and the first Add on a
freshly constructed facade — for every option record, key, value, and instant
— reaches the nil-logger dereference at the end of the lazy initialization. -/
theorem nil_logger_never_assigned (opt : CacheOptions) (k : String) (v : Option GoValue)
    (now : Int) :
    (NewCache opt).log = none ∧ (NewLruCache (toLruOptions opt)).log = none ∧
      cacheAdd (NewCache opt) k v now = Except.error GoPanic.nilLoggerDeref :=
  ⟨rfl, rfl, rfl⟩

end DCache
